import Mathlib

/-!
Verification of the `ChannelBank` derivation-pipeline stage
(`crates/derive/src/stages/channel_bank.rs`).

The `ChannelBank` struct and its methods (`size`, `prune`, `ingest_frame`,
`read`, `next_data`, `try_read_channel_at_index`, `reset`) are embedded
directly from the Rust source.  The collaborating types (`Frame`, `Channel`,
`RollupConfig`, `StageError`, the upstream `FrameQueue` and the protocol
constants) live in other crates that are not part of the source under
review; those are modelled from the specification and are marked as such.

Rust's `HashMap<ChannelID, Channel>` is embedded as an association list
(iteration order over a `HashMap` is irrelevant here: the bank only folds
sizes with `+`, looks entries up, inserts and removes).  `VecDeque<ChannelID>`
is embedded as a `List`.  A Rust out-of-bounds index panic (possible in
`try_read_channel_at_index` when the queue shrank mid-scan) is modelled by
an `Option` wrapper: `none` means the call panicked.
-/

/-- Modelled from the spec: a channel identifier, "an opaque fixed-size
identifier chosen by the data producer; acts as the map key; no ordering
semantics beyond equality". -/
abbrev ChannelID := Nat

/-- Byte strings, as lists of byte values. -/
abbrev Bytes := List Nat

/-- Modelled from the spec: the base-layer block currently associated with the
derivation pipeline's progress, carrying a block number and a timestamp. -/
structure BlockInfo where
  number : Nat
  timestamp : Nat
deriving DecidableEq

/-- Modelled from the spec: an immutable unit of input,
`\x7b id, frame_number, data, is_last \x7d`. -/
structure Frame where
  id : ChannelID
  number : Nat
  data : Bytes
  is_last : Bool
deriving DecidableEq

/-- Modelled from the spec: the fixed per-frame bookkeeping overhead added to
`estimated_size` for every accepted frame (the protocol constant). -/
def FRAME_OVERHEAD : Nat := 200

/-- Modelled from the spec: the fixed capacity bound on the total buffered
size of the channel bank (the protocol constant `max_channel_bank_size`). -/
def MAX_CHANNEL_BANK_SIZE : Nat := 100000000

/-- Modelled from the spec: rollup configuration relevant to this stage: the
channel timeout window (in base-layer blocks) and the Canyon fork activation
time (a base-layer timestamp; `none` means the fork is never scheduled). -/
structure RollupConfig where
  channel_timeout : Nat
  canyon_time : Option Nat
deriving DecidableEq

/-- Modelled from the spec: Canyon is active at a base-layer timestamp iff an
activation time is scheduled and the timestamp has reached it. -/
def RollupConfig.is_canyon_active (cfg : RollupConfig) (timestamp : Nat) : Bool :=
  match cfg.canyon_time with
  | none => false
  | some t => decide (t ≤ timestamp)

/-- Modelled from the spec: the stage error taxonomy.  `eof` is the
end-of-data signal, `notEnoughData` the transient insufficient-data signal,
and `custom` wraps a fatal error message (Rust `anyhow` errors). -/
inductive StageError where
  | eof
  | notEnoughData
  | custom (msg : String)
deriving DecidableEq

/-- Association-list lookup over `Nat` keys (first matching entry, like a
`HashMap` lookup when keys are unique). -/
def alookup {α : Type} : List (Nat × α) → Nat → Option α
  | [], _ => none
  | (k, v) :: rest, key => if k = key then some v else alookup rest key

/-- Association-list removal of the (first) entry with the given key,
matching `HashMap::remove` when keys are unique. -/
def aerase {α : Type} : List (Nat × α) → Nat → List (Nat × α)
  | [], _ => []
  | (k, v) :: rest, key => if k = key then rest else (k, v) :: aerase rest key

/-- Association-list in-place value replacement at the given key, matching a
mutation through a `HashMap` entry reference. -/
def aupdate {α : Type} : List (Nat × α) → Nat → α → List (Nat × α)
  | [], _, _ => []
  | (k, v) :: rest, key, newV =>
    if k = key then (key, newV) :: rest else (k, v) :: aupdate rest key newV

/-- The list of keys of an association list. -/
def akeys {α : Type} (m : List (Nat × α)) : List Nat := m.map Prod.fst

/-- Modelled from the spec: a `Channel` accumulates frames belonging to one
channel identifier: `\x7b id, open_block_number, received_frames
(mapping frame_number to bytes), highest_seen_is_last, estimated_size \x7d`. -/
structure Channel where
  id : ChannelID
  open_block_number : Nat
  received_frames : List (Nat × Bytes)
  highest_seen_is_last : Option Nat
  estimated_size : Nat
deriving DecidableEq

/-- Modelled from the spec: a channel is created on the first frame seen for a
new `ChannelID`, at the base-layer block height current at creation time. -/
def Channel.new (id : ChannelID) (origin : BlockInfo) : Channel :=
  { id := id, open_block_number := origin.number, received_frames := [],
    highest_seen_is_last := none, estimated_size := 0 }

/-- The size of a channel, as reported to the bank: its `estimated_size`. -/
def Channel.size (c : Channel) : Nat := c.estimated_size

/-- Modelled from the spec: record a frame in the channel's map.  A frame
whose number already exists with identical payload is tolerated without
change; one whose number exists with a different payload is rejected. -/
def Channel.insert_frame (c : Channel) (f : Frame) : Except String Channel :=
  match alookup c.received_frames f.number with
  | some payload =>
    if payload = f.data then .ok c else .error "duplicate frame with conflicting payload"
  | none =>
    .ok { c with
      received_frames := (f.number, f.data) :: c.received_frames,
      highest_seen_is_last :=
        if f.is_last then some f.number else c.highest_seen_is_last,
      estimated_size := c.estimated_size + f.data.length + FRAME_OVERHEAD }

/-- Modelled from the spec: `add_frame` rejects (without mutating state) a
frame whose id does not match the channel's id, whose frame number collides
with a different payload already stored, or that arrives after a terminal
frame has fixed the channel's length and has a frame number beyond it. -/
def Channel.add_frame (c : Channel) (f : Frame) (_origin : BlockInfo) : Except String Channel :=
  if f.id ≠ c.id then .error "frame id does not match channel id"
  else
    match c.highest_seen_is_last with
    | some n => if n < f.number then .error "frame beyond terminal frame" else c.insert_frame f
    | none => c.insert_frame f

/-- Modelled from the spec: `is_ready` holds iff a terminal frame has been
accepted and every frame number in `[0, N]` has been received (no gaps). -/
def Channel.is_ready (c : Channel) : Bool :=
  match c.highest_seen_is_last with
  | none => false
  | some n => (List.range (n + 1)).all fun k => (alookup c.received_frames k).isSome

/-- The recomputed size of a channel: the sum over stored frames of payload
size plus the per-frame overhead (used by the defensive check below). -/
def Channel.computed_size (c : Channel) : Nat :=
  c.received_frames.foldr (fun p acc => p.2.length + FRAME_OVERHEAD + acc) 0

/-- Concatenate the payloads stored for the given frame numbers, in order,
failing if any is missing. -/
def gatherFrames (fs : List (Nat × Bytes)) : List Nat → Except String Bytes
  | [] => .ok []
  | k :: rest =>
    match alookup fs k with
    | none => .error "missing frame in ready channel"
    | some payload =>
      match gatherFrames fs rest with
      | .ok tailBytes => .ok (payload ++ tailBytes)
      | .error e => .error e

/-- Modelled from the spec: `frame_data` concatenates payloads ordered by
frame number and fails if any channel invariant was somehow violated (the
defensive completeness check): a missing frame number below the terminal one,
no terminal frame, or a stale `estimated_size`. -/
def Channel.frame_data (c : Channel) : Except String Bytes :=
  if c.estimated_size ≠ c.computed_size then .error "estimated size invariant violated"
  else
    match c.highest_seen_is_last with
    | none => .error "channel is not ready"
    | some n => gatherFrames c.received_frames (List.range (n + 1))

/-- Decidable equality for `Except` results, needed to evaluate concrete
bank states in witnesses. -/
instance {ε α : Type} [DecidableEq ε] [DecidableEq α] : DecidableEq (Except ε α) := fun x y =>
  match x, y with
  | .ok a, .ok b =>
    if h : a = b then .isTrue (by rw [h])
    else .isFalse (by intro hc; cases hc; exact h rfl)
  | .error a, .error b =>
    if h : a = b then .isTrue (by rw [h])
    else .isFalse (by intro hc; cases hc; exact h rfl)
  | .ok _, .error _ => .isFalse (by intro hc; cases hc)
  | .error _, .ok _ => .isFalse (by intro hc; cases hc)

/-- Modelled from the spec: the upstream frame source, exposing
`origin()` (current known base-layer block) and `next_frame()`: popping the
next scripted result, or `Eof` when none is available. -/
structure FrameQueueModel where
  origin : Option BlockInfo
  frames : List (Except StageError Frame)
deriving DecidableEq

/-- Modelled from the spec: pull the next frame result from the source. -/
def FrameQueueModel.next_frame (fq : FrameQueueModel) :
    Except StageError Frame × FrameQueueModel :=
  match fq.frames with
  | [] => (.error .eof, fq)
  | r :: rest => (r, { fq with frames := rest })

/-- The `ChannelBank` stage state: the rollup configuration, the map of
channels by id, the FIFO queue of channel ids, and the previous stage. -/
structure ChannelBank where
  cfg : RollupConfig
  channels : List (ChannelID × Channel)
  channel_queue : List ChannelID
  prev : FrameQueueModel
deriving DecidableEq

/-- `ChannelBank::new`: empty map and queue. -/
def ChannelBank.new (cfg : RollupConfig) (prev : FrameQueueModel) : ChannelBank :=
  { cfg := cfg, channels := [], channel_queue := [], prev := prev }

/-- `ChannelBank::origin`: delegates to the previous stage. -/
def ChannelBank.origin (bank : ChannelBank) : Option BlockInfo :=
  bank.prev.origin

/-- The sum of channel sizes over the map (`ChannelBank::size` folds
`acc + c.size()` over the map entries). -/
def totalSize : List (ChannelID × Channel) → Nat
  | [] => 0
  | (_, c) :: rest => c.size + totalSize rest

/-- `ChannelBank::size`. -/
def ChannelBank.size (bank : ChannelBank) : Nat := totalSize bank.channels

/-- The loop body of `ChannelBank::prune`: while the tracked total exceeds
`MAX_CHANNEL_BANK_SIZE`, pop the front id (error if the queue is empty),
remove its channel (error if absent; note the pop has already happened),
and subtract that channel's size from the tracked total. -/
def pruneLoop (q : List ChannelID) (cs : List (ChannelID × Channel)) (total : Nat) :
    Except StageError Unit × (List ChannelID × List (ChannelID × Channel)) :=
  if total ≤ MAX_CHANNEL_BANK_SIZE then (.ok (), (q, cs))
  else
    match q with
    | [] => (.error (.custom "No channel to prune"), ([], cs))
    | id :: rest =>
      match alookup cs id with
      | none => (.error (.custom "Could not find channel"), (rest, cs))
      | some c => pruneLoop rest (aerase cs id) (total - c.size)

/-- `ChannelBank::prune`: compute the total size once, then run the loop. -/
def ChannelBank.prune (bank : ChannelBank) : Except StageError Unit × ChannelBank :=
  match pruneLoop bank.channel_queue bank.channels bank.size with
  | (r, (q, cs)) => (r, { bank with channels := cs, channel_queue := q })

/-- The `entry(frame.id).or_insert_with(...)` step of `ingest_frame`: look up
the channel for the frame, or create a new one, appending its id to the
queue. Returns the channel the entry refers to and the updated bank. -/
def ChannelBank.entryOrInsert (bank : ChannelBank) (f : Frame) (origin : BlockInfo) :
    Channel × ChannelBank :=
  match alookup bank.channels f.id with
  | some c => (c, bank)
  | none =>
    let c := Channel.new f.id origin
    (c, { bank with
            channels := (f.id, c) :: bank.channels,
            channel_queue := bank.channel_queue ++ [f.id] })

/-- `ChannelBank::ingest_frame`: require an origin; get-or-create the
channel; drop the frame (returning `Ok`) if the channel is timed out; drop
the frame (returning `Ok`) if `add_frame` rejects it; otherwise store the
updated channel and run `prune`. -/
def ChannelBank.ingest_frame (bank : ChannelBank) (frame : Frame) :
    Except StageError Unit × ChannelBank :=
  match bank.origin with
  | none => (.error (.custom "No origin"), bank)
  | some origin =>
    match bank.entryOrInsert frame origin with
    | (current_channel, bank1) =>
      if current_channel.open_block_number + bank.cfg.channel_timeout < origin.number then
        (.ok (), bank1)
      else
        match current_channel.add_frame frame origin with
        | .error _ => (.ok (), bank1)
        | .ok updated =>
          ChannelBank.prune
            { bank1 with channels := aupdate bank1.channels frame.id updated }

/-- `ChannelBank::try_read_channel_at_index`: index into the queue (`none`
models the Rust index panic when out of bounds), look the channel up, require
an origin, fail with `Eof` if the channel is timed out or not ready, and
otherwise remove the channel from both map and queue before inspecting the
result of `frame_data`. -/
def ChannelBank.try_read_channel_at_index (bank : ChannelBank) (index : Nat) :
    Option (Except StageError Bytes × ChannelBank) :=
  match bank.channel_queue[index]? with
  | none => none
  | some channel_id =>
    match alookup bank.channels channel_id with
    | none => some (.error (.custom "Channel not found"), bank)
    | some channel =>
      match bank.origin with
      | none => some (.error (.custom "No origin present"), bank)
      | some origin =>
        if channel.open_block_number + bank.cfg.channel_timeout < origin.number
            ∨ channel.is_ready = false then
          some (.error .eof, bank)
        else
          let bank2 : ChannelBank :=
            { bank with
                channels := aerase bank.channels channel_id,
                channel_queue := bank.channel_queue.eraseIdx index }
          match channel.frame_data with
          | .ok data => some (.ok data, bank2)
          | .error e => some (.error (.custom e), bank2)

/-- The loop body of the post-Canyon scan
`(0..n).find_map(|i| self.try_read_channel_at_index(i).ok())`: an `Err`
result is discarded and the scan continues on the (possibly mutated) bank.
The fuel argument, `n - i` at every call, makes the bounded loop
structurally recursive; it runs out exactly when `i` reaches `n`. -/
def readScanGo (bank : ChannelBank) (i n : Nat) : Nat → Option (Option Bytes × ChannelBank)
  | 0 => some (none, bank)
  | fuel + 1 =>
    if i < n then
      match bank.try_read_channel_at_index i with
      | none => none
      | some (.ok data, bank2) => some (some data, bank2)
      | some (.error _, bank2) => readScanGo bank2 (i + 1) n fuel
    else
      some (none, bank)

/-- The post-Canyon scan over queue indices `i, i+1, ..., n-1`, where `n` is
the queue length captured before the scan started. -/
def ChannelBank.readScan (bank : ChannelBank) (i n : Nat) :
    Option (Option Bytes × ChannelBank) :=
  readScanGo bank i n (n - i)

/-- `ChannelBank::read`: `Eof` on an empty queue; look up the front channel
and the origin; if the front channel is timed out, remove it from map and
queue and return `Ok(None)`; pre-Canyon, read only index 0; post-Canyon,
scan the whole queue and return the first successful read, else `Eof`. -/
def ChannelBank.read (bank : ChannelBank) :
    Option (Except StageError (Option Bytes) × ChannelBank) :=
  match bank.channel_queue with
  | [] => some (.error .eof, bank)
  | first :: rest =>
    match alookup bank.channels first with
    | none => some (.error (.custom "Channel not found"), bank)
    | some channel =>
      match bank.origin with
      | none => some (.error (.custom "No origin present"), bank)
      | some origin =>
        if channel.open_block_number + bank.cfg.channel_timeout < origin.number then
          some (.ok none,
            { bank with
                channels := aerase bank.channels first,
                channel_queue := rest })
        else if bank.cfg.is_canyon_active origin.timestamp = false then
          match bank.try_read_channel_at_index 0 with
          | none => none
          | some (.ok data, bank2) => some (.ok (some data), bank2)
          | some (.error e, bank2) => some (.error e, bank2)
        else
          match bank.readScan 0 bank.channel_queue.length with
          | none => none
          | some (some data, bank2) => some (.ok (some data), bank2)
          | some (none, bank2) => some (.error .eof, bank2)

/-- Rendering of a stage error, standing in for Rust's `\x7b:?\x7d` debug
formatting inside `next_data`'s error wrapper. -/
def StageError.render : StageError → String
  | .eof => "Eof"
  | .notEnoughData => "NotEnoughData"
  | .custom msg => msg

/-- `ChannelBank::next_data`: try `read`; on `Eof`, pull one frame from the
previous stage (propagating its errors), ingest it (propagating errors), and
signal `NotEnoughData`; any other `read` error is wrapped as a custom error;
data results are returned directly. -/
def ChannelBank.next_data (bank : ChannelBank) :
    Option (Except StageError (Option Bytes) × ChannelBank) :=
  match bank.read with
  | none => none
  | some (.error .eof, bank1) =>
    match bank1.prev.next_frame with
    | (.error e, prev2) => some (.error e, { bank1 with prev := prev2 })
    | (.ok frame, prev2) =>
      match ChannelBank.ingest_frame { bank1 with prev := prev2 } frame with
      | (.error e, bank2) => some (.error e, bank2)
      | (.ok _, bank2) => some (.error .notEnoughData, bank2)
  | some (.error e, bank1) =>
    some (.error (.custom ("Error fetching next data from channel bank: " ++ e.render)), bank1)
  | some (.ok data, bank1) => some (.ok data, bank1)

/-- `ChannelBank::reset` (the `ResettableStage` impl): clear the map and the
queue and report `Eof`. -/
def ChannelBank.reset (bank : ChannelBank) : Except StageError Unit × ChannelBank :=
  (.error .eof, { bank with channels := [], channel_queue := [] })

/-- The map/queue synchronization property at the level of the two
structures: the queue has no duplicates, the map keys have no duplicates, and
the two carry exactly the same ids. -/
def SyncLists (q : List ChannelID) (cs : List (ChannelID × Channel)) : Prop :=
  q.Nodup ∧ (akeys cs).Nodup ∧ (∀ id ∈ q, id ∈ akeys cs) ∧ (∀ id ∈ akeys cs, id ∈ q)

instance (q : List ChannelID) (cs : List (ChannelID × Channel)) :
    Decidable (SyncLists q cs) := by
  unfold SyncLists
  infer_instance

/-- The map/queue synchronization invariant of a channel bank. -/
def ChannelBank.InSync (bank : ChannelBank) : Prop :=
  SyncLists bank.channel_queue bank.channels

instance (bank : ChannelBank) : Decidable bank.InSync := by
  unfold ChannelBank.InSync
  infer_instance

/-- The pruning policy as worded by the spec: while the total buffered size
exceeds the fixed capacity bound, evict the channel at the front of the
queue (oldest by insertion order) regardless of its readiness or timeout
state.  The size is recomputed from the map after each eviction.  (The case
of an empty queue with the bound still exceeded is unreachable when the
queue and map are in sync.) -/
def pruneSpecModel (q : List ChannelID) (cs : List (ChannelID × Channel)) :
    List ChannelID × List (ChannelID × Channel) :=
  if totalSize cs ≤ MAX_CHANNEL_BANK_SIZE then (q, cs)
  else
    match q with
    | [] => ([], cs)
    | id :: rest => pruneSpecModel rest (aerase cs id)

/-- The bank after pruning according to the spec-worded policy. -/
def ChannelBank.pruneModel (bank : ChannelBank) : ChannelBank :=
  { bank with
      channel_queue := (pruneSpecModel bank.channel_queue bank.channels).1,
      channels := (pruneSpecModel bank.channel_queue bank.channels).2 }

/-- Run a sequence of `ingest_frame` calls, threading the bank state through
(each call's stage result is discarded; the state persists either way). -/
def ChannelBank.runIngest (bank : ChannelBank) : List Frame → ChannelBank
  | [] => bank
  | f :: rest => ((bank.ingest_frame f).2).runIngest rest

/-! Concrete states used by witnesses and counterexamples. -/

/-- A configuration with the Canyon fork active from timestamp 0. -/
def cfgCanyon : RollupConfig := { channel_timeout := 10, canyon_time := some 0 }

/-- A configuration with the Canyon fork never scheduled. -/
def cfgNoCanyon : RollupConfig := { channel_timeout := 10, canyon_time := none }

/-- A base-layer origin block. -/
def originW : BlockInfo := { number := 5, timestamp := 100 }

/-- A late base-layer origin block, far past the timeout window of channels
opened at height 0. -/
def originLate : BlockInfo := { number := 1000, timestamp := 100 }

/-- An upstream source positioned at `originW` with no scripted frames. -/
def fqW : FrameQueueModel := { origin := some originW, frames := [] }

/-- An upstream source positioned at `originLate` with no scripted frames. -/
def fqLate : FrameQueueModel := { origin := some originLate, frames := [] }

/-- An upstream source with no known origin. -/
def fqNoOrigin : FrameQueueModel := { origin := none, frames := [] }

/-- A first frame for channel 7. -/
def frameW : Frame := { id := 7, number := 0, data := [1, 2], is_last := false }

/-- A complete, ready channel holding frames `0 ↦ [1, 2]` and `1 ↦ [3]`. -/
def readyChW : Channel :=
  { id := 7, open_block_number := 5, received_frames := [(1, [3]), (0, [1, 2])],
    highest_seen_is_last := some 1, estimated_size := 403 }

/-- An open (not ready) channel holding only frame `0 ↦ [9]`. -/
def openChW : Channel :=
  { id := 3, open_block_number := 5, received_frames := [(0, [9])],
    highest_seen_is_last := none, estimated_size := 201 }

/-- A channel that passes `is_ready` but whose `estimated_size` violates the
size invariant, so its `frame_data` fails the defensive check. -/
def badChW : Channel :=
  { id := 9, open_block_number := 5, received_frames := [(0, [1])],
    highest_seen_is_last := some 0, estimated_size := 999 }

/-- A channel opened at height 0 whose buffered size exceeds the capacity
bound on its own. -/
def bigChW : Channel :=
  { id := 1, open_block_number := 0, received_frames := [],
    highest_seen_is_last := none, estimated_size := 100000001 }

/-- A bank holding an un-ready channel ahead of a ready one in the queue. -/
def bankTwoW (cfg : RollupConfig) : ChannelBank :=
  { cfg := cfg, channels := [(3, openChW), (7, readyChW)], channel_queue := [3, 7],
    prev := fqW }

/-- A bank holding a single over-sized, timed-out channel, observed from a
late origin. -/
def bankBigW : ChannelBank :=
  { cfg := cfgNoCanyon, channels := [(1, bigChW)], channel_queue := [1], prev := fqLate }

/-- A frame addressed to the timed-out channel of `bankBigW`. -/
def frameBigW : Frame := { id := 1, number := 0, data := [], is_last := false }

/-- A bank whose only channel is ready but fails the `frame_data` defensive
check, under a Canyon-active configuration. -/
def bankBadW : ChannelBank :=
  { cfg := cfgCanyon, channels := [(9, badChW)], channel_queue := [9], prev := fqW }

/-- The same bank under a pre-Canyon configuration. -/
def bankBadPreW : ChannelBank := { bankBadW with cfg := cfgNoCanyon }

/-- A bank whose only channel is timed out relative to the late origin. -/
def bankStaleW : ChannelBank :=
  { cfg := cfgNoCanyon, channels := [(1, { bigChW with estimated_size := 0 })],
    channel_queue := [1], prev := fqLate }

/-- An empty bank whose upstream source will deliver `frameW`. -/
def bankPullW : ChannelBank :=
  ChannelBank.new cfgNoCanyon { origin := some originW, frames := [.ok frameW] }

/-! Association-list lemmas. -/

theorem alookup_eq_none_iff {α : Type} (m : List (Nat × α)) (k : Nat) :
    alookup m k = none ↔ k ∉ akeys m := by
  induction m with
  | nil => simp [alookup, akeys]
  | cons p rest ih =>
    obtain ⟨k0, v0⟩ := p
    by_cases hk : k0 = k
    · subst hk
      simp [alookup, akeys]
    · simp only [alookup, akeys, List.map_cons, List.mem_cons, if_neg hk]
      rw [ih]
      unfold akeys
      constructor
      · intro hnot hor
        rcases hor with heq | hmem
        · exact hk heq.symm
        · exact hnot hmem
      · intro hnot hmem
        exact hnot (Or.inr hmem)

theorem mem_akeys_of_alookup {α : Type} {m : List (Nat × α)} {k : Nat} {v : α}
    (h : alookup m k = some v) : k ∈ akeys m := by
  by_contra hc
  rw [← alookup_eq_none_iff] at hc
  rw [hc] at h
  cases h

theorem alookup_isSome_of_mem {α : Type} {m : List (Nat × α)} {k : Nat}
    (h : k ∈ akeys m) : ∃ v, alookup m k = some v := by
  cases hl : alookup m k with
  | none =>
    rw [alookup_eq_none_iff] at hl
    exact absurd h hl
  | some v => exact ⟨v, rfl⟩

theorem akeys_aupdate {α : Type} (m : List (Nat × α)) (k : Nat) (v : α) :
    akeys (aupdate m k v) = akeys m := by
  induction m with
  | nil => rfl
  | cons p rest ih =>
    obtain ⟨k0, v0⟩ := p
    by_cases hk : k0 = k
    · subst hk
      simp [aupdate, akeys]
    · simp [aupdate, akeys, hk]
      exact ih

theorem totalSize_aerase {cs : List (ChannelID × Channel)} {k : ChannelID} {c : Channel}
    (h : alookup cs k = some c) :
    totalSize cs = c.size + totalSize (aerase cs k) := by
  induction cs with
  | nil => cases h
  | cons p rest ih =>
    obtain ⟨k0, c0⟩ := p
    by_cases hk : k0 = k
    · subst hk
      rw [alookup, if_pos rfl] at h
      injection h with h
      subst h
      simp [aerase, totalSize]
    · rw [alookup, if_neg hk] at h
      simp only [aerase, if_neg hk, totalSize]
      rw [ih h]
      omega

theorem mem_akeys_aerase {α : Type} {m : List (Nat × α)} {k x : Nat}
    (h : x ∈ akeys (aerase m k)) : x ∈ akeys m := by
  induction m with
  | nil => simpa [aerase] using h
  | cons p rest ih =>
    obtain ⟨k0, v0⟩ := p
    by_cases hk : k0 = k
    · subst hk
      rw [show aerase ((k0, v0) :: rest) k0 = rest from by simp [aerase]] at h
      unfold akeys
      rw [List.map_cons]
      exact List.mem_cons_of_mem _ h
    · simp only [aerase, if_neg hk, akeys, List.map_cons, List.mem_cons] at h ⊢
      rcases h with heq | hmem
      · exact Or.inl heq
      · exact Or.inr (ih hmem)

theorem nodup_akeys_aerase {α : Type} {m : List (Nat × α)}
    (hn : (akeys m).Nodup) (k : Nat) : (akeys (aerase m k)).Nodup := by
  induction m with
  | nil => simpa [aerase] using hn
  | cons p rest ih =>
    obtain ⟨k0, v0⟩ := p
    simp only [akeys, List.map_cons, List.nodup_cons] at hn
    by_cases hk : k0 = k
    · subst hk
      simpa [aerase] using hn.2
    · simp only [aerase, if_neg hk, akeys, List.map_cons, List.nodup_cons]
      refine ⟨fun hc => hn.1 (mem_akeys_aerase hc), ih hn.2⟩

theorem mem_akeys_aerase_iff {α : Type} {m : List (Nat × α)}
    (hn : (akeys m).Nodup) (k x : Nat) :
    x ∈ akeys (aerase m k) ↔ x ∈ akeys m ∧ x ≠ k := by
  induction m with
  | nil => simp [aerase, akeys]
  | cons p rest ih =>
    obtain ⟨k0, v0⟩ := p
    simp only [akeys, List.map_cons, List.nodup_cons] at hn
    by_cases hk : k0 = k
    · subst hk
      simp only [aerase, if_pos rfl, akeys, List.map_cons, List.mem_cons]
      constructor
      · intro hmem
        refine ⟨Or.inr hmem, fun hxk => ?_⟩
        subst hxk
        exact hn.1 hmem
      · rintro ⟨heq | hmem, hne⟩
        · exact absurd heq hne
        · exact hmem
    · simp only [aerase, if_neg hk, akeys, List.map_cons, List.mem_cons]
      rw [show (List.map Prod.fst (aerase rest k) : List Nat) = akeys (aerase rest k) from rfl]
      rw [ih hn.2]
      constructor
      · rintro (heq | ⟨hmem, hne⟩)
        · subst heq
          exact ⟨Or.inl rfl, fun hc => hk hc⟩
        · exact ⟨Or.inr hmem, hne⟩
      · rintro ⟨heq | hmem, hne⟩
        · exact Or.inl heq
        · exact Or.inr ⟨hmem, hne⟩

theorem alookup_aerase_ne {α : Type} {m : List (Nat × α)} {k x : Nat} (h : x ≠ k) :
    alookup (aerase m k) x = alookup m x := by
  induction m with
  | nil => rfl
  | cons p rest ih =>
    obtain ⟨k0, v0⟩ := p
    by_cases hk : k0 = k
    · subst hk
      rw [aerase, if_pos rfl, alookup, if_neg (fun hc => h hc.symm)]
    · rw [aerase, if_neg hk, alookup, alookup]
      by_cases hx : k0 = x
      · rw [if_pos hx, if_pos hx]
      · rw [if_neg hx, if_neg hx]
        exact ih

theorem alookup_aerase_of_nodup {α : Type} {m : List (Nat × α)}
    (hn : (akeys m).Nodup) {k x : Nat} {v : α}
    (h : alookup (aerase m k) x = some v) : alookup m x = some v := by
  by_cases hx : x = k
  · subst hx
    have hmem := mem_akeys_of_alookup h
    rw [mem_akeys_aerase_iff hn] at hmem
    exact absurd rfl hmem.2
  · rw [← alookup_aerase_ne hx]
    exact h

/-! Queue (index-based list) lemmas. -/

theorem mem_of_getElem_some {q : List ChannelID} {i : Nat} {x : ChannelID}
    (h : q[i]? = some x) : x ∈ q := by
  obtain ⟨hlt, he⟩ := List.getElem?_eq_some.mp h
  exact he ▸ List.getElem_mem hlt

theorem mem_of_mem_eraseIdx_q {q : List ChannelID} {i : Nat} {x : ChannelID}
    (h : x ∈ q.eraseIdx i) : x ∈ q := by
  induction q generalizing i with
  | nil => simpa [List.eraseIdx] using h
  | cons a rest ih =>
    cases i with
    | zero =>
      simp only [List.eraseIdx] at h
      exact List.mem_cons_of_mem a h
    | succ j =>
      simp only [List.eraseIdx, List.mem_cons] at h ⊢
      rcases h with heq | hmem
      · exact Or.inl heq
      · exact Or.inr (ih hmem)

theorem nodup_eraseIdx_q {q : List ChannelID} (hn : q.Nodup) (i : Nat) :
    (q.eraseIdx i).Nodup := by
  induction q generalizing i with
  | nil => simpa [List.eraseIdx] using hn
  | cons a rest ih =>
    rw [List.nodup_cons] at hn
    cases i with
    | zero => simpa [List.eraseIdx] using hn.2
    | succ j =>
      simp only [List.eraseIdx, List.nodup_cons]
      exact ⟨fun hc => hn.1 (mem_of_mem_eraseIdx_q hc), ih hn.2 j⟩

theorem mem_eraseIdx_iff_q {q : List ChannelID} (hn : q.Nodup) {i : Nat} {id : ChannelID}
    (hq : q[i]? = some id) (x : ChannelID) :
    x ∈ q.eraseIdx i ↔ x ∈ q ∧ x ≠ id := by
  induction q generalizing i with
  | nil => cases hq
  | cons a rest ih =>
    rw [List.nodup_cons] at hn
    cases i with
    | zero =>
      simp only [List.getElem?_cons_zero] at hq
      injection hq with hq
      subst hq
      simp only [List.eraseIdx, List.mem_cons]
      constructor
      · intro hmem
        refine ⟨Or.inr hmem, fun hc => ?_⟩
        subst hc
        exact hn.1 hmem
      · rintro ⟨heq | hmem, hne⟩
        · exact absurd heq hne
        · exact hmem
    | succ j =>
      simp only [List.getElem?_cons_succ] at hq
      have hidmem : id ∈ rest := mem_of_getElem_some hq
      simp only [List.eraseIdx, List.mem_cons]
      rw [ih hn.2 hq]
      constructor
      · rintro (heq | ⟨hmem, hne⟩)
        · subst heq
          exact ⟨Or.inl rfl, fun hc => hn.1 (hc ▸ hidmem)⟩
        · exact ⟨Or.inr hmem, hne⟩
      · rintro ⟨heq | hmem, hne⟩
        · exact Or.inl heq
        · exact Or.inr ⟨hmem, hne⟩

/-! Synchronization-preservation lemmas. -/

theorem syncLists_erase {q : List ChannelID} {cs : List (ChannelID × Channel)}
    (h : SyncLists q cs) {i : Nat} {id : ChannelID} (hq : q[i]? = some id) :
    SyncLists (q.eraseIdx i) (aerase cs id) := by
  obtain ⟨hq1, hk1, hfwd, hbwd⟩ := h
  refine ⟨nodup_eraseIdx_q hq1 i, nodup_akeys_aerase hk1 id, ?_, ?_⟩
  · intro x hx
    rw [mem_eraseIdx_iff_q hq1 hq] at hx
    rw [mem_akeys_aerase_iff hk1]
    exact ⟨hfwd x hx.1, hx.2⟩
  · intro x hx
    rw [mem_akeys_aerase_iff hk1] at hx
    rw [mem_eraseIdx_iff_q hq1 hq]
    exact ⟨hbwd x hx.1, hx.2⟩

theorem syncLists_append_new {q : List ChannelID} {cs : List (ChannelID × Channel)}
    (h : SyncLists q cs) {id : ChannelID} (hid : id ∉ akeys cs) (c : Channel) :
    SyncLists (q ++ [id]) ((id, c) :: cs) := by
  obtain ⟨hq1, hk1, hfwd, hbwd⟩ := h
  have hidq : id ∉ q := fun hc => hid (hfwd id hc)
  have hkeys : akeys ((id, c) :: cs) = id :: akeys cs := rfl
  refine ⟨?_, ?_, ?_, ?_⟩
  · exact hq1.append (List.nodup_singleton id)
      (by intro x hx hx2; rw [List.mem_singleton] at hx2; exact hidq (hx2 ▸ hx))
  · rw [hkeys, List.nodup_cons]
    exact ⟨hid, hk1⟩
  · intro x hx
    rw [List.mem_append, List.mem_singleton] at hx
    rw [hkeys, List.mem_cons]
    rcases hx with hx | hx
    · exact Or.inr (hfwd x hx)
    · exact Or.inl hx
  · intro x hx
    rw [hkeys, List.mem_cons] at hx
    rw [List.mem_append, List.mem_singleton]
    rcases hx with hx | hx
    · exact Or.inr hx
    · exact Or.inl (hbwd x hx)

theorem syncLists_aupdate {q : List ChannelID} {cs : List (ChannelID × Channel)}
    (h : SyncLists q cs) (k : ChannelID) (c : Channel) :
    SyncLists q (aupdate cs k c) := by
  obtain ⟨hq1, hk1, hfwd, hbwd⟩ := h
  rw [SyncLists, akeys_aupdate]
  exact ⟨hq1, hk1, hfwd, hbwd⟩

/-! The prune loop refines the spec-worded pruning policy when queue and map
are in sync, and in particular never fails. -/

theorem pruneLoop_refines (q : List ChannelID) :
    ∀ cs : List (ChannelID × Channel), SyncLists q cs →
      pruneLoop q cs (totalSize cs) = (.ok (), pruneSpecModel q cs) ∧
      SyncLists (pruneSpecModel q cs).1 (pruneSpecModel q cs).2 ∧
      totalSize (pruneSpecModel q cs).2 ≤ MAX_CHANNEL_BANK_SIZE := by
  induction q with
  | nil =>
    intro cs hs
    have hcs : cs = [] := by
      cases cs with
      | nil => rfl
      | cons p rest =>
        exfalso
        have : p.1 ∈ akeys (p :: rest) := by
          unfold akeys
          rw [List.map_cons]
          exact List.mem_cons_self _ _
        exact absurd (hs.2.2.2 p.1 this) (List.not_mem_nil p.1)
    subst hcs
    rw [pruneLoop, if_pos (by rw [show totalSize [] = 0 from rfl]; exact Nat.zero_le _)]
    rw [pruneSpecModel, if_pos (by rw [show totalSize [] = 0 from rfl]; exact Nat.zero_le _)]
    exact ⟨rfl, hs, by rw [show totalSize [] = 0 from rfl]; exact Nat.zero_le _⟩
  | cons id rest ih =>
    intro cs hs
    by_cases hsz : totalSize cs ≤ MAX_CHANNEL_BANK_SIZE
    · rw [pruneLoop, if_pos hsz, pruneSpecModel, if_pos hsz]
      exact ⟨rfl, hs, hsz⟩
    · have hmem : id ∈ akeys cs := hs.2.2.1 id (List.mem_cons_self id rest)
      obtain ⟨c, hc⟩ := alookup_isSome_of_mem hmem
      have htot : totalSize cs = c.size + totalSize (aerase cs id) := totalSize_aerase hc
      have hsub : totalSize cs - c.size = totalSize (aerase cs id) := by omega
      have hsync : SyncLists rest (aerase cs id) := by
        have := syncLists_erase hs (show (id :: rest)[0]? = some id from List.getElem?_cons_zero)
        simpa [List.eraseIdx] using this
      have hif : pruneLoop (id :: rest) cs (totalSize cs)
          = pruneLoop rest (aerase cs id) (totalSize cs - c.size) := by
        rw [pruneLoop, if_neg hsz, hc]
      have hspec : pruneSpecModel (id :: rest) cs = pruneSpecModel rest (aerase cs id) := by
        rw [pruneSpecModel, if_neg hsz]
      rw [hif, hsub, hspec]
      exact ih (aerase cs id) hsync

/-- Bank-level corollary: under the sync invariant, `prune` succeeds and
produces exactly the spec-worded pruning result, whose size respects the
capacity bound and which is again in sync. -/
theorem prune_refines (bank : ChannelBank) (h : bank.InSync) :
    bank.prune = (.ok (), bank.pruneModel) ∧ bank.pruneModel.InSync ∧
      bank.pruneModel.size ≤ MAX_CHANNEL_BANK_SIZE := by
  obtain ⟨heq, hsync, hsz⟩ := pruneLoop_refines bank.channel_queue bank.channels h
  unfold ChannelBank.prune ChannelBank.pruneModel ChannelBank.size ChannelBank.InSync
  rw [heq]
  exact ⟨rfl, hsync, hsz⟩

/-! Ingestion preserves the sync invariant, and the capacity bound when it
held before the call. -/

theorem ingest_frame_preserves (bank : ChannelBank) (f : Frame) (h : bank.InSync) :
    (bank.ingest_frame f).2.InSync ∧
      (bank.size ≤ MAX_CHANNEL_BANK_SIZE →
        (bank.ingest_frame f).2.size ≤ MAX_CHANNEL_BANK_SIZE) := by
  cases horig : bank.origin with
  | none =>
    simp only [ChannelBank.ingest_frame, horig]
    exact ⟨h, fun hs => hs⟩
  | some o =>
    cases hlook : alookup bank.channels f.id with
    | some c =>
      have hentry : bank.entryOrInsert f o = (c, bank) := by
        simp only [ChannelBank.entryOrInsert, hlook]
      by_cases htime : c.open_block_number + bank.cfg.channel_timeout < o.number
      · simp only [ChannelBank.ingest_frame, horig, hentry, if_pos htime]
        exact ⟨h, fun hs => hs⟩
      · cases hadd : c.add_frame f o with
        | error e =>
          simp only [ChannelBank.ingest_frame, horig, hentry, if_neg htime, hadd]
          exact ⟨h, fun hs => hs⟩
        | ok c2 =>
          simp only [ChannelBank.ingest_frame, horig, hentry, if_neg htime, hadd]
          have h2 : ChannelBank.InSync { bank with channels := aupdate bank.channels f.id c2 } :=
            syncLists_aupdate h f.id c2
          obtain ⟨heq, hsync, hsz⟩ := prune_refines _ h2
          rw [heq]
          exact ⟨hsync, fun _ => hsz⟩
    | none =>
      have hid : f.id ∉ akeys bank.channels := (alookup_eq_none_iff _ _).mp hlook
      have hentry : bank.entryOrInsert f o =
          (Channel.new f.id o,
            { bank with
                channels := (f.id, Channel.new f.id o) :: bank.channels,
                channel_queue := bank.channel_queue ++ [f.id] }) := by
        simp only [ChannelBank.entryOrInsert, hlook]
      have h1 : ChannelBank.InSync
          { bank with
              channels := (f.id, Channel.new f.id o) :: bank.channels,
              channel_queue := bank.channel_queue ++ [f.id] } :=
        syncLists_append_new h hid (Channel.new f.id o)
      have hsize : ChannelBank.size
          { bank with
              channels := (f.id, Channel.new f.id o) :: bank.channels,
              channel_queue := bank.channel_queue ++ [f.id] } = bank.size := by
        simp [ChannelBank.size, totalSize, Channel.new, Channel.size]
      by_cases htime :
          (Channel.new f.id o).open_block_number + bank.cfg.channel_timeout < o.number
      · simp only [ChannelBank.ingest_frame, horig, hentry, if_pos htime]
        exact ⟨h1, fun hs => hsize ▸ hs⟩
      · cases hadd : (Channel.new f.id o).add_frame f o with
        | error e =>
          simp only [ChannelBank.ingest_frame, horig, hentry, if_neg htime, hadd]
          exact ⟨h1, fun hs => hsize ▸ hs⟩
        | ok c2 =>
          simp only [ChannelBank.ingest_frame, horig, hentry, if_neg htime, hadd]
          have h2 : ChannelBank.InSync
              { bank with
                  channels := aupdate ((f.id, Channel.new f.id o) :: bank.channels) f.id c2,
                  channel_queue := bank.channel_queue ++ [f.id] } :=
            syncLists_aupdate h1 f.id c2
          obtain ⟨heq, hsync, hsz⟩ := prune_refines _ h2
          rw [heq]
          exact ⟨hsync, fun _ => hsz⟩

/-! Lemmas about `try_read_channel_at_index`. -/

theorem tryRead_ok_inv {bank : ChannelBank} {i : Nat} {d : Bytes} {b2 : ChannelBank}
    (h : bank.try_read_channel_at_index i = some (.ok d, b2)) :
    ∃ id c o, bank.channel_queue[i]? = some id ∧ alookup bank.channels id = some c ∧
      bank.origin = some o ∧
      ¬(c.open_block_number + bank.cfg.channel_timeout < o.number) ∧
      c.is_ready = true ∧ c.frame_data = .ok d ∧
      b2 = { bank with
              channels := aerase bank.channels id,
              channel_queue := bank.channel_queue.eraseIdx i } := by
  cases hq : bank.channel_queue[i]? with
  | none =>
    simp only [ChannelBank.try_read_channel_at_index, hq] at h
    simp at h
  | some id =>
    cases hc : alookup bank.channels id with
    | none =>
      simp only [ChannelBank.try_read_channel_at_index, hq, hc] at h
      simp at h
    | some c =>
      cases ho : bank.origin with
      | none =>
        simp only [ChannelBank.try_read_channel_at_index, hq, hc, ho] at h
        simp at h
      | some o =>
        simp only [ChannelBank.try_read_channel_at_index, hq, hc, ho] at h
        by_cases hcond :
            c.open_block_number + bank.cfg.channel_timeout < o.number ∨ c.is_ready = false
        · rw [if_pos hcond] at h
          simp at h
        · rw [if_neg hcond] at h
          push_neg at hcond
          have hready : c.is_ready = true := by
            cases hr : c.is_ready with
            | false => exact absurd hr hcond.2
            | true => rfl
          cases hfd : c.frame_data with
          | ok data =>
            simp only [hfd, Option.some.injEq, Prod.mk.injEq, Except.ok.injEq] at h
            obtain ⟨hd, hb⟩ := h
            subst hd
            exact ⟨id, c, o, rfl, hc, rfl, Nat.not_lt.mpr hcond.1, hready, hfd, hb.symm⟩
          | error e =>
            simp only [hfd] at h
            simp at h

theorem tryRead_state {bank : ChannelBank} {i : Nat} {r : Except StageError Bytes}
    {b2 : ChannelBank} (h : bank.try_read_channel_at_index i = some (r, b2)) :
    b2 = bank ∨ ∃ id, bank.channel_queue[i]? = some id ∧
      b2 = { bank with
              channels := aerase bank.channels id,
              channel_queue := bank.channel_queue.eraseIdx i } := by
  cases hq : bank.channel_queue[i]? with
  | none =>
    simp only [ChannelBank.try_read_channel_at_index, hq] at h
    simp at h
  | some id =>
    cases hc : alookup bank.channels id with
    | none =>
      simp only [ChannelBank.try_read_channel_at_index, hq, hc, Option.some.injEq,
        Prod.mk.injEq] at h
      exact Or.inl h.2.symm
    | some c =>
      cases ho : bank.origin with
      | none =>
        simp only [ChannelBank.try_read_channel_at_index, hq, hc, ho, Option.some.injEq,
          Prod.mk.injEq] at h
        exact Or.inl h.2.symm
      | some o =>
        simp only [ChannelBank.try_read_channel_at_index, hq, hc, ho] at h
        by_cases hcond :
            c.open_block_number + bank.cfg.channel_timeout < o.number ∨ c.is_ready = false
        · rw [if_pos hcond] at h
          simp only [Option.some.injEq, Prod.mk.injEq] at h
          exact Or.inl h.2.symm
        · rw [if_neg hcond] at h
          cases hfd : c.frame_data with
          | ok data =>
            simp only [hfd, Option.some.injEq, Prod.mk.injEq] at h
            exact Or.inr ⟨id, rfl, h.2.symm⟩
          | error e =>
            simp only [hfd, Option.some.injEq, Prod.mk.injEq] at h
            exact Or.inr ⟨id, rfl, h.2.symm⟩

theorem tryRead_insync {bank : ChannelBank} {i : Nat} {r : Except StageError Bytes}
    {b2 : ChannelBank} (hs : bank.InSync)
    (h : bank.try_read_channel_at_index i = some (r, b2)) : b2.InSync := by
  rcases tryRead_state h with heq | ⟨id, hq, heq⟩
  · exact heq ▸ hs
  · subst heq
    exact syncLists_erase hs hq

theorem tryRead_mono {bank : ChannelBank} {i : Nat} {r : Except StageError Bytes}
    {b2 : ChannelBank} (hn : (akeys bank.channels).Nodup)
    (h : bank.try_read_channel_at_index i = some (r, b2)) :
    (∀ id c, alookup b2.channels id = some c → alookup bank.channels id = some c) ∧
      (∀ id, id ∈ b2.channel_queue → id ∈ bank.channel_queue) ∧
      b2.origin = bank.origin ∧ b2.cfg = bank.cfg ∧ (akeys b2.channels).Nodup := by
  rcases tryRead_state h with heq | ⟨id, hq, heq⟩
  · subst heq
    exact ⟨fun _ _ hx => hx, fun _ hx => hx, rfl, rfl, hn⟩
  · subst heq
    refine ⟨fun x c hx => alookup_aerase_of_nodup hn hx,
      fun x hx => mem_of_mem_eraseIdx_q hx, rfl, rfl, nodup_akeys_aerase hn id⟩

/-! Unfolding lemmas for the post-Canyon scan. -/

theorem readScan_step {bank : ChannelBank} {i n : Nat} (h : i < n) :
    bank.readScan i n =
      match bank.try_read_channel_at_index i with
      | none => none
      | some (.ok data, bank2) => some (some data, bank2)
      | some (.error _, bank2) => bank2.readScan (i + 1) n := by
  unfold ChannelBank.readScan
  have hf : n - i = (n - (i + 1)) + 1 := by omega
  rw [hf, readScanGo, if_pos h]

theorem readScan_stop {bank : ChannelBank} {i n : Nat} (h : ¬ i < n) :
    bank.readScan i n = some (none, bank) := by
  unfold ChannelBank.readScan
  have hf : n - i = 0 := by omega
  rw [hf]
  rfl

theorem readScan_insync_aux : ∀ (k : Nat) (bank : ChannelBank) (i n : Nat), n - i ≤ k →
    bank.InSync → ∀ r b2, bank.readScan i n = some (r, b2) → b2.InSync := by
  intro k
  induction k with
  | zero =>
    intro bank i n hk hs r b2 h
    rw [readScan_stop (by omega)] at h
    simp only [Option.some.injEq, Prod.mk.injEq] at h
    exact h.2 ▸ hs
  | succ m ih =>
    intro bank i n hk hs r b2 h
    by_cases hi : i < n
    · rw [readScan_step hi] at h
      cases ht : bank.try_read_channel_at_index i with
      | none => rw [ht] at h; cases h
      | some p =>
        obtain ⟨res, bmid⟩ := p
        cases res with
        | ok d =>
          simp only [ht, Option.some.injEq, Prod.mk.injEq] at h
          exact h.2 ▸ tryRead_insync hs ht
        | error e =>
          simp only [ht] at h
          exact ih bmid (i + 1) n (by omega) (tryRead_insync hs ht) r b2 h
    · rw [readScan_stop hi] at h
      simp only [Option.some.injEq, Prod.mk.injEq] at h
      exact h.2 ▸ hs

theorem readScan_insync {bank : ChannelBank} {i n : Nat} (hs : bank.InSync)
    {r : Option Bytes} {b2 : ChannelBank} (h : bank.readScan i n = some (r, b2)) :
    b2.InSync :=
  readScan_insync_aux (n - i) bank i n (Nat.le_refl _) hs r b2 h

theorem tryRead_eof {bank : ChannelBank} {i : Nat} {id : ChannelID} {c : Channel}
    {o : BlockInfo} (hq : bank.channel_queue[i]? = some id)
    (hc : alookup bank.channels id = some c) (ho : bank.origin = some o)
    (hcond : c.open_block_number + bank.cfg.channel_timeout < o.number ∨ c.is_ready = false) :
    bank.try_read_channel_at_index i = some (.error .eof, bank) := by
  simp only [ChannelBank.try_read_channel_at_index, hq, hc, ho, if_pos hcond]

theorem tryRead_ready {bank : ChannelBank} {i : Nat} {id : ChannelID} {c : Channel}
    {o : BlockInfo} (hq : bank.channel_queue[i]? = some id)
    (hc : alookup bank.channels id = some c) (ho : bank.origin = some o)
    (hnt : ¬ (c.open_block_number + bank.cfg.channel_timeout < o.number))
    (hr : c.is_ready = true) :
    bank.try_read_channel_at_index i =
      some ((match c.frame_data with
             | .ok data => .ok data
             | .error e => .error (.custom e)),
        { bank with
            channels := aerase bank.channels id,
            channel_queue := bank.channel_queue.eraseIdx i }) := by
  have hcond : ¬ (c.open_block_number + bank.cfg.channel_timeout < o.number
      ∨ c.is_ready = false) := by
    simp [hr, hnt]
  simp only [ChannelBank.try_read_channel_at_index, hq, hc, ho, if_neg hcond]
  cases hfd : c.frame_data with
  | ok data => simp [hfd]
  | error e => simp [hfd]

theorem readScan_none_aux : ∀ (k : Nat) (bank : ChannelBank) (i n : Nat), n - i ≤ k →
    (∀ j, i ≤ j → j < n → bank.try_read_channel_at_index j = some (.error .eof, bank)) →
    bank.readScan i n = some (none, bank) := by
  intro k
  induction k with
  | zero =>
    intro bank i n hk _
    exact readScan_stop (by omega)
  | succ m ih =>
    intro bank i n hk hskip
    by_cases hi : i < n
    · rw [readScan_step hi]
      rw [hskip i (Nat.le_refl i) hi]
      exact ih bank (i + 1) n (by omega) (fun j hj1 hj2 => hskip j (by omega) hj2)
    · exact readScan_stop hi

theorem readScan_found_aux : ∀ (m : Nat) (bank : ChannelBank) (i k n : Nat) (d : Bytes)
    (b2 : ChannelBank), k - i ≤ m → i ≤ k → k < n →
    (∀ j, i ≤ j → j < k → bank.try_read_channel_at_index j = some (.error .eof, bank)) →
    bank.try_read_channel_at_index k = some (.ok d, b2) →
    bank.readScan i n = some (some d, b2) := by
  intro m
  induction m with
  | zero =>
    intro bank i k n d b2 hm hik hkn _ hfound
    have hik2 : i = k := by omega
    subst hik2
    rw [readScan_step hkn, hfound]
  | succ m ih =>
    intro bank i k n d b2 hm hik hkn hskip hfound
    by_cases hieq : i = k
    · subst hieq
      rw [readScan_step hkn, hfound]
    · have hilt : i < k := by omega
      rw [readScan_step (by omega), hskip i (Nat.le_refl i) hilt]
      exact ih bank (i + 1) k n d b2 (by omega) (by omega) hkn
        (fun j hj1 hj2 => hskip j (by omega) hj2) hfound

theorem readScan_ok_inv_aux : ∀ (k : Nat) (bank : ChannelBank) (i n : Nat), n - i ≤ k →
    (akeys bank.channels).Nodup → ∀ d b2, bank.readScan i n = some (some d, b2) →
    ∃ id c o, id ∈ bank.channel_queue ∧ alookup bank.channels id = some c ∧
      bank.origin = some o ∧
      ¬(c.open_block_number + bank.cfg.channel_timeout < o.number) ∧
      c.is_ready = true ∧ c.frame_data = .ok d := by
  intro k
  induction k with
  | zero =>
    intro bank i n hk _ d b2 h
    rw [readScan_stop (by omega)] at h
    simp at h
  | succ m ih =>
    intro bank i n hk hn d b2 h
    by_cases hi : i < n
    · rw [readScan_step hi] at h
      cases ht : bank.try_read_channel_at_index i with
      | none => rw [ht] at h; cases h
      | some p =>
        obtain ⟨res, bmid⟩ := p
        cases res with
        | ok d0 =>
          simp only [ht, Option.some.injEq, Prod.mk.injEq] at h
          obtain ⟨hd, _⟩ := h
          subst hd
          obtain ⟨id, c, o, hq, hc, ho, hnt, hr, hfd, _⟩ := tryRead_ok_inv ht
          exact ⟨id, c, o, mem_of_getElem_some hq, hc, ho, hnt, hr, hfd⟩
        | error e =>
          simp only [ht] at h
          obtain ⟨hmono, hqmono, horig, hcfg, hn2⟩ := tryRead_mono hn ht
          obtain ⟨id, c, o, hmem, hc, ho, hnt, hr, hfd⟩ :=
            ih bmid (i + 1) n (by omega) hn2 d b2 h
          rw [hcfg] at hnt
          rw [horig] at ho
          exact ⟨id, c, o, hqmono id hmem, hmono id c hc, ho, hnt, hr, hfd⟩
    · rw [readScan_stop hi] at h
      simp at h

theorem readScan_ok_inv {bank : ChannelBank} {i n : Nat}
    (hn : (akeys bank.channels).Nodup) {d : Bytes} {b2 : ChannelBank}
    (h : bank.readScan i n = some (some d, b2)) :
    ∃ id c o, id ∈ bank.channel_queue ∧ alookup bank.channels id = some c ∧
      bank.origin = some o ∧
      ¬(c.open_block_number + bank.cfg.channel_timeout < o.number) ∧
      c.is_ready = true ∧ c.frame_data = .ok d :=
  readScan_ok_inv_aux (n - i) bank i n (Nat.le_refl _) hn d b2 h

theorem prune_prev (bank : ChannelBank) : (bank.prune).2.prev = bank.prev := by
  unfold ChannelBank.prune
  cases pruneLoop bank.channel_queue bank.channels bank.size with
  | mk r p =>
    cases p with
    | mk q cs => rfl

theorem prune_cfg (bank : ChannelBank) : (bank.prune).2.cfg = bank.cfg := by
  unfold ChannelBank.prune
  cases pruneLoop bank.channel_queue bank.channels bank.size with
  | mk r p =>
    cases p with
    | mk q cs => rfl

theorem ingest_frame_prev (bank : ChannelBank) (f : Frame) :
    (bank.ingest_frame f).2.prev = bank.prev := by
  cases horig : bank.origin with
  | none => simp [ChannelBank.ingest_frame, horig]
  | some o =>
    cases hlook : alookup bank.channels f.id with
    | some c =>
      have hentry : bank.entryOrInsert f o = (c, bank) := by
        simp only [ChannelBank.entryOrInsert, hlook]
      by_cases htime : c.open_block_number + bank.cfg.channel_timeout < o.number
      · simp only [ChannelBank.ingest_frame, horig, hentry, if_pos htime]
      · cases hadd : c.add_frame f o with
        | error e => simp only [ChannelBank.ingest_frame, horig, hentry, if_neg htime, hadd]
        | ok c2 =>
          simp only [ChannelBank.ingest_frame, horig, hentry, if_neg htime, hadd]
          rw [prune_prev]
    | none =>
      have hentry : bank.entryOrInsert f o =
          (Channel.new f.id o,
            { bank with
                channels := (f.id, Channel.new f.id o) :: bank.channels,
                channel_queue := bank.channel_queue ++ [f.id] }) := by
        simp only [ChannelBank.entryOrInsert, hlook]
      by_cases htime :
          (Channel.new f.id o).open_block_number + bank.cfg.channel_timeout < o.number
      · simp only [ChannelBank.ingest_frame, horig, hentry, if_pos htime]
      · cases hadd : (Channel.new f.id o).add_frame f o with
        | error e => simp only [ChannelBank.ingest_frame, horig, hentry, if_neg htime, hadd]
        | ok c2 =>
          simp only [ChannelBank.ingest_frame, horig, hentry, if_neg htime, hadd]
          rw [prune_prev]

theorem runIngest_inv (fs : List Frame) : ∀ b : ChannelBank, b.InSync →
    b.size ≤ MAX_CHANNEL_BANK_SIZE →
    (b.runIngest fs).InSync ∧ (b.runIngest fs).size ≤ MAX_CHANNEL_BANK_SIZE := by
  induction fs with
  | nil => intro b hb hbs; exact ⟨hb, hbs⟩
  | cons f rest ih =>
    intro b hb hbs
    obtain ⟨h1, h2⟩ := ingest_frame_preserves b f hb
    exact ih _ h1 (h2 hbs)

theorem new_insync (cfg : RollupConfig) (prev : FrameQueueModel) :
    (ChannelBank.new cfg prev).InSync := by
  refine ⟨List.nodup_nil, List.nodup_nil, ?_, ?_⟩ <;> intro id hid <;> cases hid

theorem read_insync {bank : ChannelBank} (hs : bank.InSync)
    {r : Except StageError (Option Bytes)} {b2 : ChannelBank}
    (h : bank.read = some (r, b2)) : b2.InSync := by
  cases hqe : bank.channel_queue with
  | nil =>
    simp only [ChannelBank.read, hqe, Option.some.injEq, Prod.mk.injEq] at h
    exact h.2 ▸ hs
  | cons first rest =>
    cases hc : alookup bank.channels first with
    | none =>
      simp only [ChannelBank.read, hqe, hc, Option.some.injEq, Prod.mk.injEq] at h
      exact h.2 ▸ hs
    | some channel =>
      cases ho : bank.origin with
      | none =>
        simp only [ChannelBank.read, hqe, hc, ho, Option.some.injEq, Prod.mk.injEq] at h
        exact h.2 ▸ hs
      | some o =>
        simp only [ChannelBank.read, hqe, hc, ho] at h
        by_cases htime : channel.open_block_number + bank.cfg.channel_timeout < o.number
        · rw [if_pos htime] at h
          simp only [Option.some.injEq, Prod.mk.injEq] at h
          refine h.2 ▸ ?_
          have hq0 : bank.channel_queue[0]? = some first := by
            rw [hqe]
            exact List.getElem?_cons_zero
          have := syncLists_erase hs hq0
          rw [hqe] at this
          exact this
        · rw [if_neg htime] at h
          by_cases hcan : bank.cfg.is_canyon_active o.timestamp = false
          · rw [if_pos hcan] at h
            cases ht : bank.try_read_channel_at_index 0 with
            | none => rw [ht] at h; cases h
            | some p =>
              obtain ⟨res, bmid⟩ := p
              cases res with
              | ok d =>
                simp only [ht, Option.some.injEq, Prod.mk.injEq] at h
                exact h.2 ▸ tryRead_insync hs ht
              | error e =>
                simp only [ht, Option.some.injEq, Prod.mk.injEq] at h
                exact h.2 ▸ tryRead_insync hs ht
          · rw [if_neg hcan] at h
            cases hscan : bank.readScan 0 (first :: rest).length with
            | none => rw [hscan] at h; cases h
            | some p =>
              obtain ⟨res, bmid⟩ := p
              cases res with
              | some d =>
                simp only [hscan, Option.some.injEq, Prod.mk.injEq] at h
                exact h.2 ▸ readScan_insync hs hscan
              | none =>
                simp only [hscan, Option.some.injEq, Prod.mk.injEq] at h
                exact h.2 ▸ readScan_insync hs hscan

/-! Claim theorems. -/

/-- C1: for every sequence of `ingest_frame` calls on a `ChannelBank` (starting
from a fresh bank), immediately after each `ingest_frame` call that returns
successfully, the total buffered size is at most `MAX_CHANNEL_BANK_SIZE`. -/
theorem capacity_invariant_after_ingest (cfg : RollupConfig) (prev : FrameQueueModel)
    (fs : List Frame) (f : Frame) (bank2 : ChannelBank)
    (h : ((ChannelBank.new cfg prev).runIngest fs).ingest_frame f = (.ok (), bank2)) :
    bank2.size ≤ MAX_CHANNEL_BANK_SIZE := by
  obtain ⟨hins, hsz⟩ := runIngest_inv fs (ChannelBank.new cfg prev) (new_insync cfg prev)
    (by simp [ChannelBank.new, ChannelBank.size, totalSize])
  obtain ⟨_, h2⟩ := ingest_frame_preserves _ f hins
  have hb2 : (((ChannelBank.new cfg prev).runIngest fs).ingest_frame f).2 = bank2 := by
    rw [h]
  rw [← hb2]
  exact h2 hsz

/-- C1 witness: a concrete successful ingest whose resulting size respects
the bound. -/
theorem capacity_invariant_after_ingest_witness :
    ∃ b2, ((ChannelBank.new cfgNoCanyon fqW).runIngest []).ingest_frame frameW
        = (.ok (), b2) ∧ b2.size ≤ MAX_CHANNEL_BANK_SIZE :=
  ⟨(((ChannelBank.new cfgNoCanyon fqW).runIngest []).ingest_frame frameW).2,
    by decide,
    capacity_invariant_after_ingest cfgNoCanyon fqW [] frameW _ (by decide)⟩

/-- C3: when queue and map are in sync, `prune` succeeds and produces exactly
the spec-worded result of repeatedly evicting the front channel (regardless
of readiness or timeout, which `pruneSpecModel` never consults) while the
total size exceeds the bound; and `prune` can only fail when the queue and
map are out of sync. -/
theorem prune_refines_spec_model (bank : ChannelBank) :
    (bank.InSync → bank.prune = (.ok (), bank.pruneModel) ∧
      bank.pruneModel.size ≤ MAX_CHANNEL_BANK_SIZE) ∧
    (∀ e b2, bank.prune = (.error e, b2) → ¬ bank.InSync) := by
  constructor
  · intro hs
    obtain ⟨heq, _, hsz⟩ := prune_refines bank hs
    exact ⟨heq, hsz⟩
  · intro e b2 h hs
    obtain ⟨heq, _, _⟩ := prune_refines bank hs
    rw [heq] at h
    simp at h

/-- C3 witness: pruning a concrete over-full bank evicts its front channel
and succeeds. -/
theorem prune_refines_spec_model_witness :
    bankBigW.prune = (.ok (), bankBigW.pruneModel) ∧
      bankBigW.pruneModel.size ≤ MAX_CHANNEL_BANK_SIZE :=
  (prune_refines_spec_model bankBigW).1 (by decide)

/-- C6 counterexample: an `ingest_frame` call that completes (dropping the
frame because its channel timed out) but does not run the prune step: the
returned state still exceeds the capacity bound, while actually running
`prune` on it would change it. -/
theorem ingest_drop_paths_skip_prune_cex :
    bankBigW.ingest_frame frameBigW = (.ok (), bankBigW) ∧
      MAX_CHANNEL_BANK_SIZE < bankBigW.size ∧
      bankBigW.prune = (.ok (), { bankBigW with channels := [], channel_queue := [] }) ∧
      ({ bankBigW with channels := [], channel_queue := [] } : ChannelBank) ≠ bankBigW := by
  refine ⟨by decide, by decide, by decide, by decide⟩

/-- C6 amended: only the `ingest_frame` path on which `add_frame` succeeds
runs the prune step; the timed-out-drop and rejected-frame-drop paths return
`Ok` immediately with the post-entry state, without pruning. -/
theorem ingest_prune_only_on_success (bank : ChannelBank) (f : Frame) (o : BlockInfo)
    (ho : bank.origin = some o) :
    ((bank.entryOrInsert f o).1.open_block_number + bank.cfg.channel_timeout < o.number →
      bank.ingest_frame f = (.ok (), (bank.entryOrInsert f o).2)) ∧
    (¬ ((bank.entryOrInsert f o).1.open_block_number + bank.cfg.channel_timeout < o.number) →
      (∀ e, (bank.entryOrInsert f o).1.add_frame f o = .error e →
        bank.ingest_frame f = (.ok (), (bank.entryOrInsert f o).2)) ∧
      (∀ c2, (bank.entryOrInsert f o).1.add_frame f o = .ok c2 →
        bank.ingest_frame f =
          ChannelBank.prune
            { (bank.entryOrInsert f o).2 with
                channels := aupdate (bank.entryOrInsert f o).2.channels f.id c2 })) := by
  cases he : bank.entryOrInsert f o with
  | mk c b1 =>
    simp only
    constructor
    · intro htime
      simp only [ChannelBank.ingest_frame, ho, he, if_pos htime]
    · intro htime
      constructor
      · intro e hadd
        simp only [ChannelBank.ingest_frame, ho, he, if_neg htime, hadd]
      · intro c2 hadd
        simp only [ChannelBank.ingest_frame, ho, he, if_neg htime, hadd]

/-- C6 amended witness: the timed-out-drop path at a concrete bank returns
the post-entry state unchanged. -/
theorem ingest_prune_only_on_success_witness :
    bankBigW.ingest_frame frameBigW
      = (.ok (), (bankBigW.entryOrInsert frameBigW originLate).2) :=
  (ingest_prune_only_on_success bankBigW frameBigW originLate rfl).1 (by decide)

/-- C7: `ingest_frame` with no known origin fails with the fatal "No origin"
error and leaves the bank unmodified. -/
theorem ingest_no_origin_guard (bank : ChannelBank) (f : Frame)
    (h : bank.origin = none) :
    bank.ingest_frame f = (.error (.custom "No origin"), bank) := by
  simp only [ChannelBank.ingest_frame, h]

/-- C7 witness: the guard fires on a concrete origin-less bank. -/
theorem ingest_no_origin_guard_witness :
    (ChannelBank.new cfgNoCanyon fqNoOrigin).ingest_frame frameW
      = (.error (.custom "No origin"), ChannelBank.new cfgNoCanyon fqNoOrigin) :=
  ingest_no_origin_guard (ChannelBank.new cfgNoCanyon fqNoOrigin) frameW rfl

/-- C9: each complete `ChannelBank` operation preserves the map/queue sync
invariant: `ingest_frame`, `prune`, `read` (when it completes without a
panic), and `reset`. -/
theorem map_queue_sync_preserved (bank : ChannelBank) (h : bank.InSync) :
    (∀ f, (bank.ingest_frame f).2.InSync) ∧
    (bank.prune).2.InSync ∧
    (∀ r b2, bank.read = some (r, b2) → b2.InSync) ∧
    (bank.reset).2.InSync := by
  refine ⟨?_, ?_, ?_, ?_⟩
  · intro f
    exact (ingest_frame_preserves bank f h).1
  · obtain ⟨heq, hsync, _⟩ := prune_refines bank h
    rw [heq]
    exact hsync
  · intro r b2 hr
    exact read_insync h hr
  · refine ⟨List.nodup_nil, List.nodup_nil, ?_, ?_⟩ <;> intro id hid <;> cases hid

/-- C9 witness: sync preservation applied to a concrete in-sync bank. -/
theorem map_queue_sync_preserved_witness :
    ((bankTwoW cfgCanyon).ingest_frame frameW).2.InSync :=
  (map_queue_sync_preserved (bankTwoW cfgCanyon) (by decide)).1 frameW

/-- C10: when `try_read_channel_at_index` reaches a channel that is neither
timed out nor un-ready, it removes that channel from both map and queue
before inspecting `frame_data`, so the channel is destroyed even when
`frame_data` returns an error. -/
theorem try_read_destroys_channel_on_error (bank : ChannelBank) (i : Nat)
    (id : ChannelID) (c : Channel) (o : BlockInfo)
    (hq : bank.channel_queue[i]? = some id)
    (hc : alookup bank.channels id = some c) (ho : bank.origin = some o)
    (hnt : ¬ (c.open_block_number + bank.cfg.channel_timeout < o.number))
    (hr : c.is_ready = true) :
    ∃ r, bank.try_read_channel_at_index i =
      some (r, { bank with
                  channels := aerase bank.channels id,
                  channel_queue := bank.channel_queue.eraseIdx i }) ∧
      (∀ e, c.frame_data = .error e → r = .error (.custom e)) := by
  refine ⟨_, tryRead_ready hq hc ho hnt hr, ?_⟩
  intro e he
  simp [he]

/-- C10 witness: a concrete ready channel whose `frame_data` fails is still
removed from both structures. -/
theorem try_read_destroys_channel_on_error_witness :
    ∃ r, bankBadW.try_read_channel_at_index 0 =
      some (r, { bankBadW with
                  channels := aerase bankBadW.channels 9,
                  channel_queue := bankBadW.channel_queue.eraseIdx 0 }) ∧
      (∀ e, badChW.frame_data = .error e → r = .error (.custom e)) :=
  try_read_destroys_channel_on_error bankBadW 0 9 badChW originW
    rfl rfl rfl (by decide) (by decide)

/-- C4: a timed-out channel is never returned as data by `read` (any data
returned comes from a channel of the bank that is not timed out), and a
`read` call that observes a timed-out channel at the front of the queue
removes it from both map and queue and returns `Ok(None)`. -/
theorem read_never_returns_timed_out (bank : ChannelBank) :
    ((akeys bank.channels).Nodup → ∀ d b2, bank.read = some (.ok (some d), b2) →
      ∃ id c o, id ∈ bank.channel_queue ∧ alookup bank.channels id = some c ∧
        bank.origin = some o ∧
        ¬(c.open_block_number + bank.cfg.channel_timeout < o.number) ∧
        c.is_ready = true ∧ c.frame_data = .ok d) ∧
    (∀ first rest c o, bank.channel_queue = first :: rest →
      alookup bank.channels first = some c → bank.origin = some o →
      c.open_block_number + bank.cfg.channel_timeout < o.number →
      bank.read = some (.ok none,
        { bank with
            channels := aerase bank.channels first,
            channel_queue := rest })) := by
  constructor
  · intro hn d b2 h
    cases hqe : bank.channel_queue with
    | nil =>
      simp only [ChannelBank.read, hqe] at h
      simp at h
    | cons first rest =>
      cases hc : alookup bank.channels first with
      | none =>
        simp only [ChannelBank.read, hqe, hc] at h
        simp at h
      | some channel =>
        cases ho : bank.origin with
        | none =>
          simp only [ChannelBank.read, hqe, hc, ho] at h
          simp at h
        | some o =>
          simp only [ChannelBank.read, hqe, hc, ho] at h
          by_cases htime : channel.open_block_number + bank.cfg.channel_timeout < o.number
          · rw [if_pos htime] at h
            simp at h
          · rw [if_neg htime] at h
            by_cases hcan : bank.cfg.is_canyon_active o.timestamp = false
            · rw [if_pos hcan] at h
              cases ht : bank.try_read_channel_at_index 0 with
              | none => rw [ht] at h; cases h
              | some p =>
                obtain ⟨res, bmid⟩ := p
                cases res with
                | ok d0 =>
                  simp only [ht, Option.some.injEq, Prod.mk.injEq, Except.ok.injEq] at h
                  obtain ⟨hd, _⟩ := h
                  have hd2 : d0 = d := by simpa using hd
                  subst hd2
                  obtain ⟨id, c, o2, hq, hc2, ho2, hnt, hr, hfd, _⟩ := tryRead_ok_inv ht
                  rw [← hqe, ← ho]
                  exact ⟨id, c, o2, mem_of_getElem_some hq, hc2, ho2, hnt, hr, hfd⟩
                | error e =>
                  simp only [ht] at h
                  simp at h
            · rw [if_neg hcan] at h
              cases hscan : bank.readScan 0 (first :: rest).length with
              | none => rw [hscan] at h; cases h
              | some p =>
                obtain ⟨res, bmid⟩ := p
                cases res with
                | some d0 =>
                  simp only [hscan, Option.some.injEq, Prod.mk.injEq, Except.ok.injEq] at h
                  obtain ⟨hd, _⟩ := h
                  have hd2 : d0 = d := by simpa using hd
                  subst hd2
                  rw [← hqe, ← ho]
                  exact readScan_ok_inv hn hscan
                | none =>
                  simp only [hscan] at h
                  simp at h
  · intro first rest c o hqe hc ho htime
    simp only [ChannelBank.read, hqe, hc, ho, if_pos htime]

/-- C4 witness: a concrete timed-out front channel is evicted by `read`,
which reports `Ok(None)`. -/
theorem read_never_returns_timed_out_witness :
    bankStaleW.read = some (.ok none,
      { bankStaleW with
          channels := aerase bankStaleW.channels 1,
          channel_queue := [] }) :=
  (read_never_returns_timed_out bankStaleW).2 1 [] { bigChW with estimated_size := 0 }
    originLate rfl rfl rfl (by decide)

/-- C5 counterexample: under a Canyon-active configuration, a ready channel
whose `frame_data` fails its defensive check does not abort `read` with a
fatal error: the error is discarded by the scan, the channel is destroyed,
and the call completes with `Eof`. -/
theorem frame_data_failure_absorbed_cex :
    badChW.is_ready = true ∧
      badChW.frame_data = .error "estimated size invariant violated" ∧
      bankBadW.read = some (.error .eof,
        { bankBadW with channels := [], channel_queue := [] }) := by
  refine ⟨rfl, rfl, by decide⟩

/-- C5 amended: when a ready channel's `frame_data` fails during `read`,
the pre-Canyon head-only path aborts with the fatal `Custom` error, but the
post-Canyon scan path discards the failure: a completed post-Canyon `read`
only ever reports data or `Eof`. -/
theorem frame_data_failure_handling (bank : ChannelBank) (first : ChannelID)
    (rest : List ChannelID) (c : Channel) (o : BlockInfo)
    (hqe : bank.channel_queue = first :: rest)
    (hc : alookup bank.channels first = some c) (ho : bank.origin = some o)
    (hnt : ¬ (c.open_block_number + bank.cfg.channel_timeout < o.number)) :
    (bank.cfg.is_canyon_active o.timestamp = false → c.is_ready = true →
      ∀ e, c.frame_data = .error e →
        bank.read = some (.error (.custom e),
          { bank with
              channels := aerase bank.channels first,
              channel_queue := bank.channel_queue.eraseIdx 0 })) ∧
    (bank.cfg.is_canyon_active o.timestamp = true →
      ∀ r b2, bank.read = some (r, b2) →
        r = .error .eof ∨ ∃ d, r = .ok (some d)) := by
  constructor
  · intro hcan hr e he
    have hq0 : bank.channel_queue[0]? = some first := by
      rw [hqe]
      exact List.getElem?_cons_zero
    have ht := tryRead_ready hq0 hc ho hnt hr
    simp only [he] at ht
    simp only [ChannelBank.read, hqe, hc, ho, if_neg hnt, if_pos hcan, ht]
  · intro hcan r b2 h
    have hcann : ¬ (bank.cfg.is_canyon_active o.timestamp = false) := by simp [hcan]
    simp only [ChannelBank.read, hqe, hc, ho, if_neg hnt, if_neg hcann] at h
    cases hscan : bank.readScan 0 (first :: rest).length with
    | none => rw [hscan] at h; cases h
    | some p =>
      obtain ⟨res, bmid⟩ := p
      cases res with
      | some d =>
        simp only [hscan, Option.some.injEq, Prod.mk.injEq] at h
        exact Or.inr ⟨d, h.1.symm⟩
      | none =>
        simp only [hscan, Option.some.injEq, Prod.mk.injEq] at h
        exact Or.inl h.1.symm

/-- C5 amended witness: pre-Canyon, the concrete defective channel's failure
surfaces as a fatal `Custom` error while the channel is destroyed. -/
theorem frame_data_failure_handling_witness :
    bankBadPreW.read = some (.error (.custom "estimated size invariant violated"),
      { bankBadPreW with
          channels := aerase bankBadPreW.channels 9,
          channel_queue := bankBadPreW.channel_queue.eraseIdx 0 }) :=
  (frame_data_failure_handling bankBadPreW 9 [] badChW originW rfl rfl rfl
    (by decide)).1 rfl rfl "estimated size invariant violated" rfl

/-- C8: when `read` fails with `Eof` inside `next_data`, exactly one frame is
pulled from the upstream source; after a successful ingest the call always
reports `NotEnoughData` instead of re-attempting `read`. -/
theorem next_data_single_ingest (bank bank1 bank2 : ChannelBank) (f : Frame)
    (rest : List (Except StageError Frame))
    (hread : bank.read = some (.error .eof, bank1))
    (hfr : bank1.prev.frames = .ok f :: rest)
    (hing : ChannelBank.ingest_frame
        { bank1 with prev := { bank1.prev with frames := rest } } f = (.ok (), bank2)) :
    bank.next_data = some (.error .notEnoughData, bank2) ∧ bank2.prev.frames = rest := by
  have hnf : bank1.prev.next_frame = (.ok f, { bank1.prev with frames := rest }) := by
    simp only [FrameQueueModel.next_frame, hfr]
  constructor
  · simp only [ChannelBank.next_data, hread, hnf, hing]
  · have hprev := ingest_frame_prev
      { bank1 with prev := { bank1.prev with frames := rest } } f
    rw [hing] at hprev
    rw [show bank2.prev = { bank1.prev with frames := rest } from hprev]

/-- C8 witness: a concrete empty bank pulls one scripted frame and reports
`NotEnoughData`. -/
theorem next_data_single_ingest_witness :
    bankPullW.next_data = some (.error .notEnoughData,
      (ChannelBank.ingest_frame
        { bankPullW with prev := { bankPullW.prev with frames := [] } } frameW).2) ∧
    (ChannelBank.ingest_frame
      { bankPullW with prev := { bankPullW.prev with frames := [] } } frameW).2.prev.frames
      = [] :=
  next_data_single_ingest bankPullW bankPullW _ frameW [] (by decide) (by decide) (by decide)

/-- C2: with no timed-out channels buffered, pre-Canyon `read` considers only
the channel at queue index 0 and fails with `Eof` whenever that channel is
not ready (whatever sits behind it); post-Canyon `read` scans the queue in
order and returns the data of the first ready channel regardless of its
position, and fails with `Eof` only when no channel is ready. -/
theorem read_canyon_gated_scan (bank : ChannelBank) (first : ChannelID)
    (rest : List ChannelID) (c0 : Channel) (o : BlockInfo)
    (hqe : bank.channel_queue = first :: rest)
    (hc0 : alookup bank.channels first = some c0)
    (ho : bank.origin = some o)
    (hsync : bank.InSync)
    (hnto : ∀ id ∈ bank.channel_queue, ∀ c ∈ alookup bank.channels id,
      ¬ (c.open_block_number + bank.cfg.channel_timeout < o.number)) :
    (bank.cfg.is_canyon_active o.timestamp = false → c0.is_ready = false →
      bank.read = some (.error .eof, bank)) ∧
    (bank.cfg.is_canyon_active o.timestamp = true →
      (∀ k id c d, bank.channel_queue[k]? = some id →
        alookup bank.channels id = some c → c.is_ready = true → c.frame_data = .ok d →
        (∀ j < k, ∀ id2 ∈ bank.channel_queue[j]?, ∀ c2 ∈ alookup bank.channels id2,
          c2.is_ready = false) →
        bank.read = some (.ok (some d),
          { bank with
              channels := aerase bank.channels id,
              channel_queue := bank.channel_queue.eraseIdx k })) ∧
      ((∀ id ∈ bank.channel_queue, ∀ c ∈ alookup bank.channels id, c.is_ready = false) →
        bank.read = some (.error .eof, bank))) := by
  have hq0 : bank.channel_queue[0]? = some first := by
    rw [hqe]
    exact List.getElem?_cons_zero
  have hmem0 : first ∈ bank.channel_queue := mem_of_getElem_some hq0
  have hnt0 : ¬ (c0.open_block_number + bank.cfg.channel_timeout < o.number) :=
    hnto first hmem0 c0 (by rw [hc0]; rfl)
  refine ⟨?_, fun hcan => ⟨?_, ?_⟩⟩
  · intro hcan hnr
    have ht : bank.try_read_channel_at_index 0 = some (.error .eof, bank) :=
      tryRead_eof hq0 hc0 ho (Or.inr hnr)
    simp only [ChannelBank.read, hqe, hc0, ho, if_neg hnt0, if_pos hcan, ht]
  · intro k id c d hqk hcid hr hfd hskip
    have hknl : k < bank.channel_queue.length := (List.getElem?_eq_some.mp hqk).1
    have hnt : ¬ (c.open_block_number + bank.cfg.channel_timeout < o.number) :=
      hnto id (mem_of_getElem_some hqk) c (by rw [hcid]; rfl)
    have hfound := tryRead_ready hqk hcid ho hnt hr
    simp only [hfd] at hfound
    have hskip2 : ∀ j, 0 ≤ j → j < k →
        bank.try_read_channel_at_index j = some (.error .eof, bank) := by
      intro j _ hjk
      have hjl : j < bank.channel_queue.length := by omega
      have hqj : bank.channel_queue[j]? = some bank.channel_queue[j] :=
        List.getElem?_eq_getElem hjl
      obtain ⟨c2, hc2⟩ := alookup_isSome_of_mem
        (hsync.2.2.1 bank.channel_queue[j] (mem_of_getElem_some hqj))
      have hnr2 : c2.is_ready = false :=
        hskip j hjk bank.channel_queue[j] (by rw [hqj]; rfl) c2 (by rw [hc2]; rfl)
      exact tryRead_eof hqj hc2 ho (Or.inr hnr2)
    have hscan := readScan_found_aux k bank 0 k bank.channel_queue.length d _
      (by omega) (Nat.zero_le k) hknl hskip2 hfound
    have hcann : ¬ (bank.cfg.is_canyon_active o.timestamp = false) := by simp [hcan]
    rw [hqe] at hscan
    simp only [ChannelBank.read, hqe, hc0, ho, if_neg hnt0, if_neg hcann, hscan]
  · intro hallnr
    have hskip2 : ∀ j, 0 ≤ j → j < bank.channel_queue.length →
        bank.try_read_channel_at_index j = some (.error .eof, bank) := by
      intro j _ hjl
      have hqj : bank.channel_queue[j]? = some bank.channel_queue[j] :=
        List.getElem?_eq_getElem hjl
      obtain ⟨c2, hc2⟩ := alookup_isSome_of_mem
        (hsync.2.2.1 bank.channel_queue[j] (mem_of_getElem_some hqj))
      have hnr2 : c2.is_ready = false :=
        hallnr bank.channel_queue[j] (mem_of_getElem_some hqj) c2 (by rw [hc2]; rfl)
      exact tryRead_eof hqj hc2 ho (Or.inr hnr2)
    have hscan := readScan_none_aux bank.channel_queue.length bank 0
      bank.channel_queue.length (by omega) hskip2
    have hcann : ¬ (bank.cfg.is_canyon_active o.timestamp = false) := by simp [hcan]
    rw [hqe] at hscan
    simp only [ChannelBank.read, hqe, hc0, ho, if_neg hnt0, if_neg hcann, hscan]

/-- C2 witness: with an un-ready channel at position 0 and a ready one at
position 1, pre-Canyon `read` fails with `Eof` while post-Canyon `read`
returns the ready channel's data and removes it. -/
theorem read_canyon_gated_scan_witness :
    (bankTwoW cfgNoCanyon).read = some (.error .eof, bankTwoW cfgNoCanyon) ∧
    (bankTwoW cfgCanyon).read = some (.ok (some [1, 2, 3]),
      { bankTwoW cfgCanyon with
          channels := aerase (bankTwoW cfgCanyon).channels 7,
          channel_queue := (bankTwoW cfgCanyon).channel_queue.eraseIdx 1 }) := by
  constructor
  · exact (read_canyon_gated_scan (bankTwoW cfgNoCanyon) 3 [7] openChW originW rfl rfl rfl
      (by decide) (by decide)).1 rfl rfl
  · exact ((read_canyon_gated_scan (bankTwoW cfgCanyon) 3 [7] openChW originW rfl rfl rfl
      (by decide) (by decide)).2 rfl).1 1 7 readyChW [1, 2, 3] rfl rfl rfl rfl (by decide)
